import Mathlib

/-!
Verification of the SectorDNS `dnstool` CLI (src/dnstool/cli.py).

The zone file and the Configuration Document are modelled as character
lists (`Text`); Python file operations become pure functions on `Text`.
-/

namespace SectorDNS

set_option maxRecDepth 32768

/-- A file's textual content, modelled as a list of characters. -/
abbrev Text := List Char

/-- Python `str.readlines` helper: accumulate characters of the current
line (in reverse) and cut after every newline character. -/
def readlinesAux : Text → Text → List Text
  | [], acc => if acc = [] then [] else [acc.reverse]
  | c :: rest, acc =>
    if c = '\n' then (acc.reverse ++ ['\n']) :: readlinesAux rest []
    else readlinesAux rest (c :: acc)

/-- Python `file.readlines()`: split text into lines, each line keeping
its trailing newline; a final fragment without a newline is its own line. -/
def readlines (s : Text) : List Text := readlinesAux s []

/-- ASCII whitespace, as recognised by Python `str.strip`. -/
def isSpace (c : Char) : Bool :=
  c = ' ' || c = '\t' || c = '\n' || c = '\r' || c = '\x0b' || c = '\x0c'

/-- Python `str.strip()`: remove leading and trailing whitespace. -/
def strip (s : Text) : Text :=
  ((s.dropWhile isSpace).reverse.dropWhile isSpace).reverse

/-- Decimal digits of a natural number, fuel-guided so that the kernel can
evaluate it (`fuel = n` always suffices). -/
def natReprGo : Nat → Nat → Text
  | 0, n => [Nat.digitChar n]
  | fuel + 1, n =>
    if n < 10 then [Nat.digitChar n]
    else natReprGo fuel (n / 10) ++ [Nat.digitChar (n % 10)]

/-- Python `str(n)` for a non-negative integer. -/
def natRepr (n : Nat) : Text := natReprGo n n

/-- Python `str(t)` for an `int`, as used by the f-string rendering the TTL. -/
def intRepr (t : Int) : Text :=
  match t with
  | Int.ofNat n => natRepr n
  | Int.negSucc n => '-' :: natRepr (n + 1)

/-- The serialized A-record line `f"{hostname} {ttl} IN A {ip}\n"` built by
`RecordManagement.add_record`. -/
def mkRecord (hostname : Text) (ttl : Int) (ip : Text) : Text :=
  hostname ++ [' '] ++ intRepr ttl ++ " IN A ".data ++ ip ++ ['\n']

/-- `RecordManagement.add_record`: append the serialized record to the zone
file (Python open mode "a"); the reload side effect always follows. -/
def add_record (content : Text) (hostname : Text) (ttl : Int) (ip : Text) : Text :=
  content ++ mkRecord hostname ttl ip

/-- The message printed by `RecordManagement.delete_record`. -/
inductive DeleteMsg : Type
  | noHostname : DeleteMsg
  | forbidden : Text → DeleteMsg
  | notFound : Text → DeleteMsg
  | deleted : Text → DeleteMsg
deriving DecidableEq

/-- Observable outcome of one `delete_record` run: resulting zone-file
content, whether the file was rewritten, whether CoreDNS was reloaded, and
the message printed. -/
structure DeleteResult : Type where
  content : Text
  wrote : Bool
  reloaded : Bool
  msg : DeleteMsg
deriving DecidableEq

/-- The reserved names checked by `delete_record`. -/
def forbiddenNames : List Text :=
  ["$ORIGIN".data, "@".data, "ns1".data, " ".data]

/-- `RecordManagement.delete_record` on zone-file content `content` with
command-line argument `hostnameArg`. -/
def delete_record (content : Text) (hostnameArg : Text) : DeleteResult :=
  let hostname := strip hostnameArg
  if hostname.isEmpty then ⟨content, false, false, DeleteMsg.noHostname⟩
  else if forbiddenNames.contains hostname then
    ⟨content, false, false, DeleteMsg.forbidden hostname⟩
  else
    let lines := readlines content
    let newLines := lines.filter (fun line => !((hostname ++ [' ']).isPrefixOf line))
    if newLines.length = lines.length then
      ⟨content, false, false, DeleteMsg.notFound hostname⟩
    else
      ⟨newLines.flatten, true, true, DeleteMsg.deleted hostname⟩

/-- The four strings `Init.__create_zone_file__` writes for zone `zname`:
ORIGIN directive, SOA block, NS directive and the bootstrap ns1 A record. -/
def createContent (zname : Text) : Text :=
  "$ORIGIN ".data ++ zname ++ ".\n".data ++
    "@   3600 IN SOA ns1.".data ++ zname ++ ". admin.".data ++ zname ++
      ". (\n        1 3600 600 86400 3600\n)\n".data ++
    "    IN NS ns1.".data ++ zname ++ ".\n".data ++
    "ns1 IN A 127.0.0.1\n".data

/-- `Init.__create_zone_file__`: the zone file (absent = `none`) is written
only when it does not already exist. -/
def createZoneFile (existing : Option Text) (zname : Text) : Option Text :=
  match existing with
  | some t => some t
  | none => some (createContent zname)

/-- The ACL marker `"# ACL"`. -/
def aclMarker : Text := "# ACL".data

/-- The ZONE marker `"# ZONE"`. -/
def zoneMarker : Text := "# ZONE".data

/-- The rendered ACL block of `Init.run` for the sector CIDR text. -/
def aclBlock (cidr : Text) : Text :=
  "acl \x7b\n        allow net ".data ++ cidr ++ "\n        drop\n    \x7d".data

/-- The rendered zone-inclusion block of `Init.run` for the zone name. -/
def zoneBlock (zname : Text) : Text :=
  "file /etc/coredns/zone.db ".data ++ zname ++ " \x7b\n        fallthrough\n    \x7d".data

/-- Python `str.replace`, fuel-guided: scan left to right and replace every
(non-overlapping) occurrence of `pat`; `fuel = s.length` always suffices. -/
def replaceAllGo (pat rep : Text) : Nat → Text → Text
  | _, [] => []
  | 0, s => s
  | fuel + 1, c :: rest =>
    if pat.isPrefixOf (c :: rest) then
      rep ++ replaceAllGo pat rep fuel (rest.drop (pat.length - 1))
    else
      c :: replaceAllGo pat rep fuel rest

/-- Python `data.replace(pat, rep)` (for the non-empty patterns used here). -/
def replaceAll (pat rep s : Text) : Text :=
  if pat.isEmpty then s else replaceAllGo pat rep s.length s

/-- The in-memory rewrite performed by `Init.run` on the Configuration
Document: `data.replace("# ACL", acl).replace("# ZONE", zone)`. -/
def initTransform (cidr zname data : Text) : Text :=
  replaceAll zoneMarker (zoneBlock zname) (replaceAll aclMarker (aclBlock cidr) data)

/-- Python substring containment `pat in s`. -/
def containsSub (pat : Text) : Text → Bool
  | [] => pat.isEmpty
  | c :: rest => pat.isPrefixOf (c :: rest) || containsSub pat rest

/-- The two files `Init.run` may touch: the Configuration Document and the
zone file (absent = `none`). -/
structure InitState : Type where
  coreFile : Text
  zoneFile : Option Text
deriving DecidableEq

/-- Observable outcome of one `Init.run`: resulting state, whether the
Configuration Document was rewritten, and whether "Already initialized."
was printed. -/
structure InitResult : Type where
  state : InitState
  coreWritten : Bool
  already : Bool
deriving DecidableEq

/-- `Init.run`, after the collaborators have produced the sector CIDR text
and the zone name: guard on the ACL marker, substitute both markers, then
ensure the zone file exists. -/
def initRun (cidr zname : Text) (st : InitState) : InitResult :=
  if !(containsSub aclMarker st.coreFile) then
    ⟨st, false, true⟩
  else
    ⟨⟨initTransform cidr zname st.coreFile, createZoneFile st.zoneFile zname⟩, true, false⟩

/-- Python `s.split("-")`, accumulator form. -/
def splitDashAux : Text → Text → List Text
  | [], acc => [acc.reverse]
  | c :: rest, acc =>
    if c = '-' then acc.reverse :: splitDashAux rest []
    else splitDashAux rest (c :: acc)

/-- Python `s.split("-")`. -/
def splitDash (s : Text) : List Text := splitDashAux s []

/-- `Init.__get_zone_from_hostname__` applied to the raw stdout of the
`hostname` command: the tuple unpacking `zone, _ = stdout.split("-")`
fails (returns `none`) unless the split yields exactly two parts. -/
def getZoneFromHostname (stdout : Text) : Option Text :=
  match splitDash stdout with
  | [z, _] => some (z ++ ".orbitlab.internal".data)
  | _ => none

/-- A well-formed line: non-empty, with no newline before its final character. -/
def GoodLine (l : Text) : Prop := l ≠ [] ∧ ∀ c ∈ l.dropLast, c ≠ '\n'

/-- A newline-terminated well-formed line. -/
def FullLine (l : Text) : Prop := GoodLine l ∧ l.getLast? = some '\n'

/-- No occurrence of `pat` inside `a ++ pat ++ tail` begins strictly before
the shown one. -/
def noEarlyMatch (pat a tail : Text) : Bool :=
  (List.range a.length).all (fun j => !(pat.isPrefixOf ((a ++ pat ++ tail).drop j)))

/-- Zone-file contents reachable through zone-file creation, `add_record`
and `delete_record`. -/
inductive Reachable : Text → Prop
  | create (zname : Text) : Reachable (createContent zname)
  | add (content hostname ip : Text) (ttl : Int) :
      Reachable content → Reachable (add_record content hostname ttl ip)
  | del (content hostnameArg : Text) :
      Reachable content → Reachable ((delete_record content hostnameArg).content)

/-- Every hostname occurs in at most one line of the zone file (a line
"occurs for" hostname `h` when it starts with `h` followed by a space). -/
def UniqueHostnames (content : Text) : Prop :=
  ∀ h : Text, ((readlines content).filter (fun l => (h ++ [' ']).isPrefixOf l)).length ≤ 1

/-! ### Structure of `readlines` output -/

theorem isPrefixOf_eq_true_iff (l₁ l₂ : Text) : l₁.isPrefixOf l₂ = true ↔ l₁ <+: l₂ :=
  List.isPrefixOf_iff_prefix

theorem readlinesAux_flatten (s : Text) :
    ∀ acc, (readlinesAux s acc).flatten = acc.reverse ++ s := by
  induction s with
  | nil =>
    intro acc
    by_cases h : acc = [] <;> simp [readlinesAux, h]
  | cons c rest ih =>
    intro acc
    by_cases h : c = '\n'
    · simp [readlinesAux, h, ih]
    · simp [readlinesAux, h, ih]

/-- The lines concatenate back to the original text. -/
theorem flatten_readlines (s : Text) : (readlines s).flatten = s := by
  simpa using readlinesAux_flatten s []

theorem readlinesAux_full_append (l : Text) :
    FullLine l → ∀ t acc, readlinesAux (l ++ t) acc = (acc.reverse ++ l) :: readlinesAux t [] := by
  induction l with
  | nil => intro hl; exact absurd rfl hl.1.1
  | cons c rest ih =>
    intro hl t acc
    cases rest with
    | nil =>
      have hc : c = '\n' := by
        have h2 := hl.2
        rw [List.getLast?_singleton] at h2
        exact Option.some.inj h2
      simp [readlinesAux, hc]
    | cons d rest' =>
      have hc : c ≠ '\n' := by
        apply hl.1.2
        rw [List.dropLast_cons₂]
        exact List.mem_cons_self c _
      have hfull : FullLine (d :: rest') := by
        refine ⟨⟨by simp, fun x hx => ?_⟩, ?_⟩
        · exact hl.1.2 x (by rw [List.dropLast_cons₂]; exact List.mem_cons_of_mem c hx)
        · rw [← List.getLast?_cons_cons]; exact hl.2
      simp only [List.cons_append]
      rw [readlinesAux]
      simp only [hc, if_false]
      rw [← List.cons_append, ih hfull t (c :: acc)]
      simp

theorem readlinesAux_nonl_append (l : Text) :
    (∀ c ∈ l, c ≠ '\n') → ∀ t acc, readlinesAux (l ++ t) acc = readlinesAux t (l.reverse ++ acc) := by
  induction l with
  | nil => intro _ t acc; simp
  | cons c rest ih =>
    intro h t acc
    have hc : c ≠ '\n' := h c (List.mem_cons_self c rest)
    simp only [List.cons_append]
    rw [readlinesAux]
    simp only [hc, if_false]
    rw [ih (fun x hx => h x (List.mem_cons_of_mem c hx)) t (c :: acc)]
    simp

theorem readlinesAux_good (l : Text) (hl : GoodLine l) (acc : Text) :
    readlinesAux l acc = [acc.reverse ++ l] := by
  by_cases hfull : l.getLast? = some '\n'
  · have := readlinesAux_full_append l ⟨hl, hfull⟩ [] acc
    simpa [readlinesAux] using this
  · have hall : ∀ c ∈ l, c ≠ '\n' := by
      intro c hc
      have hsplit := List.dropLast_append_getLast hl.1
      rw [← hsplit] at hc
      rcases List.mem_append.mp hc with h1 | h1
      · exact hl.2 c h1
      · have : c = l.getLast hl.1 := by simpa using h1
        subst this
        intro hcn
        apply hfull
        rw [List.getLast?_eq_getLast l hl.1, hcn]
    have := readlinesAux_nonl_append l hall [] acc
    rw [List.append_nil] at this
    rw [this, readlinesAux]
    have hne : l.reverse ++ acc ≠ [] := by simp [hl.1]
    simp [hne]

/-- Splitting a single well-formed line. -/
theorem readlines_single (l : Text) (hl : GoodLine l) : readlines l = [l] := by
  simpa using readlinesAux_good l hl []

theorem readlinesAux_fulls_append (ls : List Text) :
    (∀ l ∈ ls, FullLine l) → ∀ t, readlinesAux (ls.flatten ++ t) [] = ls ++ readlinesAux t [] := by
  induction ls with
  | nil => intro _ t; simp
  | cons l ls ih =>
    intro h t
    rw [List.flatten_cons, List.append_assoc,
      readlinesAux_full_append l (h l (List.mem_cons_self l ls)) _ []]
    rw [ih (fun x hx => h x (List.mem_cons_of_mem l hx)) t]
    simp

theorem readlinesAux_good_mem (s : Text) :
    ∀ acc, (∀ c ∈ acc, c ≠ '\n') → ∀ l ∈ readlinesAux s acc, GoodLine l := by
  induction s with
  | nil =>
    intro acc hacc l hl
    by_cases h : acc = []
    · simp [readlinesAux, h] at hl
    · simp only [readlinesAux, h, if_false, List.mem_singleton] at hl
      subst hl
      refine ⟨by simp [h], fun c hc => ?_⟩
      exact hacc c (by simpa using List.mem_of_mem_dropLast hc)
  | cons c rest ih =>
    intro acc hacc l hl
    by_cases h : c = '\n'
    · simp only [readlinesAux, h, if_true, List.mem_cons] at hl
      rcases hl with hl | hl
      · subst hl
        refine ⟨by simp, fun x hx => ?_⟩
        rw [List.dropLast_concat] at hx
        exact hacc x (by simpa using hx)
      · exact ih [] (by simp) l hl
    · simp only [readlinesAux, h, if_false] at hl
      refine ih (c :: acc) ?_ l hl
      intro x hx
      rcases List.mem_cons.mp hx with h1 | h1
      · subst h1; exact h
      · exact hacc x h1

theorem readlinesAux_dropLast_full (s : Text) :
    ∀ acc, (∀ c ∈ acc, c ≠ '\n') → ∀ l ∈ (readlinesAux s acc).dropLast, FullLine l := by
  induction s with
  | nil =>
    intro acc hacc l hl
    by_cases h : acc = [] <;> simp [readlinesAux, h] at hl
  | cons c rest ih =>
    intro acc hacc l hl
    by_cases h : c = '\n'
    · simp only [readlinesAux, h, if_true] at hl
      rcases e : readlinesAux rest [] with _ | ⟨a, as⟩
      · rw [e] at hl; simp at hl
      · rw [e, List.dropLast_cons₂, List.mem_cons] at hl
        rcases hl with hl | hl
        · subst hl
          refine ⟨⟨by simp, fun x hx => ?_⟩, by simp⟩
          rw [List.dropLast_concat] at hx
          exact hacc x (by simpa using hx)
        · exact ih [] (by simp) l (by rw [e]; exact hl)
    · simp only [readlinesAux, h, if_false] at hl
      refine ih (c :: acc) ?_ l hl
      intro x hx
      rcases List.mem_cons.mp hx with h1 | h1
      · subst h1; exact h
      · exact hacc x h1

/-- Every line of the output of `readlines` is well-formed. -/
theorem readlines_good (s : Text) : ∀ l ∈ readlines s, GoodLine l :=
  readlinesAux_good_mem s [] (by simp)

/-- Every line but the last in the output of `readlines` is newline-terminated. -/
theorem readlines_dropLast_full (s : Text) : ∀ l ∈ (readlines s).dropLast, FullLine l :=
  readlinesAux_dropLast_full s [] (by simp)

theorem readlines_eq_nil_iff (s : Text) : readlines s = [] ↔ s = [] := by
  constructor
  · intro h
    have := flatten_readlines s
    rw [h] at this
    simpa using this.symm
  · intro h; simp [h, readlines, readlinesAux]

/-- All lines of a newline-terminated text are newline-terminated. -/
theorem readlines_full_of_newline_end (s : Text) (hs : s.getLast? = some '\n') :
    ∀ l ∈ readlines s, FullLine l := by
  intro l hl
  have hg : GoodLine l := readlines_good s l hl
  have hne : readlines s ≠ [] := by
    intro h
    rw [readlines_eq_nil_iff] at h
    rw [h] at hs
    simp at hs
  have hsplit := List.dropLast_append_getLast hne
  rw [← hsplit, List.mem_append] at hl
  rcases hl with hl | hl
  · exact readlines_dropLast_full s l hl
  · have hleq : l = (readlines s).getLast hne := by simpa using hl
    subst hleq
    refine ⟨hg, ?_⟩
    have hfl : s = (readlines s).flatten := (flatten_readlines s).symm
    rw [hfl, ← hsplit, List.flatten_append] at hs
    simp only [List.flatten_cons, List.flatten_nil, List.append_nil, List.getLast?_append] at hs
    obtain ⟨x, hx⟩ := Option.isSome_iff_exists.mp (List.getLast?_isSome.mpr hg.1)
    rw [hx] at hs
    simp only [Option.or_some] at hs
    rw [hx, hs]

/-- `readlines` distributes over appending to a newline-terminated prefix. -/
theorem readlines_newline_append (s t : Text) (hs : s = [] ∨ s.getLast? = some '\n') :
    readlines (s ++ t) = readlines s ++ readlines t := by
  rcases hs with rfl | hs
  · simp [readlines, readlinesAux]
  · have hfull := readlines_full_of_newline_end s hs
    conv_lhs => rw [show s = (readlines s).flatten from (flatten_readlines s).symm]
    show readlinesAux ((readlines s).flatten ++ t) [] = _
    rw [readlinesAux_fulls_append _ hfull t]
    rfl

/-- Re-reading the concatenation of a filtered line list yields that list. -/
theorem readlines_flatten_filter (s : Text) (p : Text → Bool) :
    readlines (((readlines s).filter p).flatten) = (readlines s).filter p := by
  by_cases hne : readlines s = []
  · rw [hne]; simp [readlines, readlinesAux]
  · have hsplit := List.dropLast_append_getLast hne
    have htgood : GoodLine ((readlines s).getLast hne) :=
      readlines_good s _ (List.getLast_mem hne)
    have hinit : ∀ l ∈ ((readlines s).dropLast).filter p, FullLine l := fun l hl =>
      readlines_dropLast_full s l (List.mem_filter.mp hl).1
    conv_lhs => rw [← hsplit]
    conv_rhs => rw [← hsplit]
    rw [List.filter_append, List.filter_singleton]
    by_cases hp : p ((readlines s).getLast hne)
    · simp only [hp, cond_true]
      rw [List.flatten_append]
      simp only [List.flatten_cons, List.flatten_nil, List.append_nil]
      show readlinesAux _ [] = _
      rw [readlinesAux_fulls_append _ hinit]
      rw [readlinesAux_good _ htgood []]
      simp
    · simp only [hp, cond_false, List.append_nil]
      show readlinesAux _ [] = _
      have := readlinesAux_fulls_append (((readlines s).dropLast).filter p) hinit []
      simpa [readlinesAux] using this

/-! ### Shape of serialized records -/

theorem digitChar_ne_newline (n : Nat) : Nat.digitChar n ≠ '\n' := by
  by_cases h16 : n < 16
  · interval_cases n <;> decide
  · have hstar : Nat.digitChar n = '*' := by
      unfold Nat.digitChar
      repeat' rw [if_neg (by omega)]
    rw [hstar]
    decide

theorem newline_not_mem_natReprGo (fuel : Nat) :
    ∀ n : Nat, '\n' ∉ natReprGo fuel n := by
  induction fuel with
  | zero =>
    intro n
    simp only [natReprGo, List.mem_singleton]
    exact Ne.symm (digitChar_ne_newline n)
  | succ fuel ih =>
    intro n
    rw [natReprGo]
    by_cases h : n < 10
    · simp only [h, if_true, List.mem_singleton]
      exact Ne.symm (digitChar_ne_newline n)
    · simp only [h, if_false, List.mem_append, List.mem_singleton]
      rintro (hm | hm)
      · exact ih (n / 10) hm
      · exact Ne.symm (digitChar_ne_newline (n % 10)) hm

theorem newline_not_mem_intRepr (t : Int) : '\n' ∉ intRepr t := by
  cases t with
  | ofNat n => exact newline_not_mem_natReprGo n n
  | negSucc n =>
    simp only [intRepr, List.mem_cons]
    rintro (h | h)
    · exact absurd h (by decide)
    · exact newline_not_mem_natReprGo (n + 1) (n + 1) h

/-- A record line built by `add_record` (from newline-free pieces) is a single
newline-terminated line. -/
theorem mkRecord_full (hostname : Text) (ttl : Int) (ip : Text)
    (hh : '\n' ∉ hostname) (hi : '\n' ∉ ip) : FullLine (mkRecord hostname ttl ip) := by
  refine ⟨⟨?_, ?_⟩, ?_⟩
  · simp [mkRecord]
  · intro c hc
    simp only [mkRecord] at hc
    rw [List.dropLast_concat] at hc
    simp only [List.mem_append] at hc
    rintro rfl
    rcases hc with ((((hm | hm) | hm) | hm) | hm)
    · exact hh hm
    · exact absurd hm (by decide)
    · exact newline_not_mem_intRepr ttl hm
    · exact absurd hm (by decide)
    · exact hi hm
  · simp only [mkRecord, List.getLast?_append]
    simp

/-! ### Behaviour of `replaceAll` on single occurrences -/

theorem replaceAllGo_of_not_contains (pat rep : Text) :
    ∀ (s : Text) (fuel : Nat), s.length ≤ fuel → containsSub pat s = false →
      replaceAllGo pat rep fuel s = s := by
  intro s
  induction s with
  | nil => intro fuel _ _; cases fuel <;> rfl
  | cons c rest ih =>
    intro fuel hfuel hocc
    rw [containsSub, Bool.or_eq_false_iff] at hocc
    cases fuel with
    | zero => simp at hfuel
    | succ f =>
      rw [replaceAllGo]
      rw [ih f (by simpa using hfuel) hocc.2]
      simp [hocc.1]

theorem replaceAllGo_split (pat rep : Text) (hpat : pat ≠ []) :
    ∀ (a tail : Text) (fuel : Nat), (a ++ pat ++ tail).length ≤ fuel →
      noEarlyMatch pat a tail = true → containsSub pat tail = false →
      replaceAllGo pat rep fuel (a ++ pat ++ tail) = a ++ rep ++ tail := by
  intro a
  induction a with
  | nil =>
    intro tail fuel hfuel _ hocc
    cases pat with
    | nil => exact absurd rfl hpat
    | cons p ps =>
      cases fuel with
      | zero => simp at hfuel
      | succ f =>
        simp only [List.nil_append, List.cons_append]
        rw [replaceAllGo]
        have hpre : (p :: ps).isPrefixOf (p :: (ps ++ tail)) = true := by
          rw [isPrefixOf_eq_true_iff]
          exact (List.prefix_append (p :: ps) tail).trans (by simp)
        simp only [hpre, if_true]
        have hdrop : (ps ++ tail).drop ((p :: ps).length - 1) = tail := by
          simp only [List.length_cons, Nat.add_sub_cancel]
          exact List.drop_left ps tail
        rw [hdrop, replaceAllGo_of_not_contains (p :: ps) rep tail f ?_ hocc]
        have hlen : (p :: (ps ++ tail)).length ≤ f + 1 := by simpa using hfuel
        simp only [List.length_cons, Nat.add_le_add_iff_right] at hlen
        calc tail.length ≤ ps.length + tail.length := Nat.le_add_left _ _
          _ ≤ f := by simpa using hlen
  | cons x a' ih =>
    intro tail fuel hfuel hearly hocc
    cases fuel with
    | zero => simp at hfuel
    | succ f =>
      have h0 : pat.isPrefixOf ((x :: a') ++ pat ++ tail) = false := by
        rw [noEarlyMatch, List.all_eq_true] at hearly
        have := hearly 0 (List.mem_range.mpr (by simp))
        simpa using this
      have hearly' : noEarlyMatch pat a' tail = true := by
        rw [noEarlyMatch, List.all_eq_true] at hearly ⊢
        intro j hj
        have := hearly (j + 1) (List.mem_range.mpr (by
          simp only [List.length_cons]
          exact Nat.succ_lt_succ (List.mem_range.mp hj)))
        simpa using this
      simp only [List.cons_append] at h0 ⊢
      rw [replaceAllGo]
      simp only [h0, if_false]
      rw [← List.cons_append, ← List.cons_append] at h0
      rw [ih tail f (by simpa using hfuel) hearly' hocc]
      simp

/-- `str.replace` on a string with a unique occurrence of the pattern
substitutes exactly that occurrence. -/
theorem replaceAll_single (pat rep a tail : Text) (hpat : pat ≠ [])
    (hearly : noEarlyMatch pat a tail = true) (hocc : containsSub pat tail = false) :
    replaceAll pat rep (a ++ pat ++ tail) = a ++ rep ++ tail := by
  rw [replaceAll]
  have hne : pat.isEmpty = false := by cases pat <;> simp_all
  rw [if_neg (by simp [hne])]
  exact replaceAllGo_split pat rep hpat a tail _ le_rfl hearly hocc

/-! ### Splitting the hostname on hyphens -/

theorem splitDashAux_no_dash (a : Text) :
    '-' ∉ a → ∀ (rest acc : Text), splitDashAux (a ++ rest) acc = splitDashAux rest (a.reverse ++ acc) := by
  induction a with
  | nil => intro _ rest acc; simp
  | cons c a' ih =>
    intro h rest acc
    have hc : c ≠ '-' := fun hcd => h (hcd ▸ List.mem_cons_self c a')
    simp only [List.cons_append]
    rw [splitDashAux]
    simp only [hc, if_false]
    rw [ih (fun hm => h (List.mem_cons_of_mem c hm)) rest (c :: acc)]
    simp

/-! ### The claims -/

/-- C1: if the Configuration Document does not contain the ACL marker
"# ACL", `Init.run` leaves both the document and the zone file unchanged,
performs no write, and reports "Already initialized.". -/
theorem init_already_initialized_guard (cidr zname : Text) (st : InitState)
    (h : containsSub aclMarker st.coreFile = false) :
    initRun cidr zname st = ⟨st, false, true⟩ := by
  rw [initRun]
  simp [h]

/-- C1 witness: the guard at a concrete marker-free document with no zone
file present. -/
theorem init_already_initialized_guard_witness :
    containsSub aclMarker ("fwd . /etc/resolv.conf\n".data) = false ∧
    initRun ("10.0.0.0/24".data) ("s.orbitlab.internal".data)
        ⟨"fwd . /etc/resolv.conf\n".data, none⟩ =
      ⟨⟨"fwd . /etc/resolv.conf\n".data, none⟩, false, true⟩ :=
  ⟨by decide, init_already_initialized_guard _ _ _ (by decide)⟩

/-- C9: zone-file creation is idempotent: creating twice equals creating
once, and creation on an existing file is a no-op returning it unchanged. -/
theorem create_zone_file_idempotent (existing : Option Text) (zname : Text) :
    createZoneFile (createZoneFile existing zname) zname = createZoneFile existing zname ∧
    ∀ t : Text, createZoneFile (some t) zname = some t := by
  constructor
  · cases existing <;> rfl
  · intro t; rfl

/-- C6 counterexample: the freshly created zone file has 6 physical lines,
not 4 (the SOA block spans three lines). -/
theorem example_scenario_cex :
    (readlines (createContent ("s.orbitlab.internal".data))).length ≠ 4 := by
  decide

/-- C6 (amended): the created zone file has 6 lines (4 structural entries,
the SOA block spanning 3 lines); `add_record("web1", 300, "10.0.0.5")`
appends exactly "web1 300 IN A 10.0.0.5\n", giving 7 lines;
`delete_record("web1")` returns the file to its created 6-line content;
a second `delete_record("web1")` reports not-found and changes nothing. -/
theorem example_scenario :
    (readlines (createContent ("s.orbitlab.internal".data))).length = 6 ∧
    add_record (createContent ("s.orbitlab.internal".data)) ("web1".data) 300 ("10.0.0.5".data) =
      createContent ("s.orbitlab.internal".data) ++ "web1 300 IN A 10.0.0.5\n".data ∧
    (readlines (add_record (createContent ("s.orbitlab.internal".data)) ("web1".data) 300
      ("10.0.0.5".data))).length = 7 ∧
    delete_record (add_record (createContent ("s.orbitlab.internal".data)) ("web1".data) 300
        ("10.0.0.5".data)) ("web1".data) =
      ⟨createContent ("s.orbitlab.internal".data), true, true, DeleteMsg.deleted ("web1".data)⟩ ∧
    delete_record (createContent ("s.orbitlab.internal".data)) ("web1".data) =
      ⟨createContent ("s.orbitlab.internal".data), false, false, DeleteMsg.notFound ("web1".data)⟩ := by
  refine ⟨by decide, by decide, by decide, by decide, by decide⟩

/-- C8 counterexample: for the hostname "abc" (stdout "abc\n", no hyphen)
the derivation fails with an unpacking error (`none`) instead of producing
the first hyphen-delimited component with the zone suffix. -/
theorem zone_from_hostname_cex :
    getZoneFromHostname ("abc".data ++ ['\n']) ≠
      some ((splitDash ("abc".data)).headD [] ++ ".orbitlab.internal".data) := by
  decide

/-- C8 (amended): for a system hostname of the form `a-b` with exactly one
hyphen, the derived zone name is `a.orbitlab.internal` where `a` is the
first hyphen-delimited component; hostnames with zero or several hyphens
make the derivation raise instead. -/
theorem zone_from_hostname_single_hyphen (a b : Text) (ha : '-' ∉ a) (hb : '-' ∉ b) :
    getZoneFromHostname (a ++ ['-'] ++ b ++ ['\n']) = some (a ++ ".orbitlab.internal".data) := by
  have harg : a ++ ['-'] ++ b ++ ['\n'] = a ++ (['-'] ++ (b ++ ['\n'])) := by simp
  have hsplit : splitDash (a ++ (['-'] ++ (b ++ ['\n']))) = [a, b ++ ['\n']] := by
    rw [splitDash, splitDashAux_no_dash a ha]
    simp [splitDashAux, splitDashAux_no_dash b hb]
  rw [harg]
  simp only [getZoneFromHostname]
  rw [hsplit]

/-- C8 witness: the derivation at the concrete hostname "sec1-node7". -/
theorem zone_from_hostname_single_hyphen_witness :
    '-' ∉ ("sec1".data : Text) ∧ '-' ∉ ("node7".data : Text) ∧
    getZoneFromHostname ("sec1".data ++ ['-'] ++ "node7".data ++ ['\n']) =
      some ("sec1".data ++ ".orbitlab.internal".data) :=
  ⟨by decide, by decide, zone_from_hostname_single_hyphen _ _ (by decide) (by decide)⟩

/-- C5 counterexample: uniqueness of hostnames is not an invariant of
reachable states: `add_record` never checks for duplicates, so adding
"web1" twice yields a reachable zone file with two "web1" lines. -/
theorem uniqueness_invariant_cex :
    ¬ (∀ content, Reachable content → UniqueHostnames content) := by
  intro hall
  have hreach : Reachable (add_record (add_record (createContent ("s.orbitlab.internal".data))
      ("web1".data) 300 ("10.0.0.5".data)) ("web1".data) 300 ("10.0.0.6".data)) :=
    Reachable.add _ _ _ _ (Reachable.add _ _ _ _ (Reachable.create _))
  have h := hall _ hreach ("web1".data)
  revert h
  decide

/-- C5 (amended): uniqueness is enforced only by the delete path: every
`delete_record` run either leaves the zone file unchanged or leaves it
with no line at all for the deleted hostname; `add_record` appends without
re-checking, so duplicates can accumulate. -/
theorem delete_enforces_absence (content hostnameArg : Text) :
    (delete_record content hostnameArg).content = content ∨
    ∀ l ∈ readlines ((delete_record content hostnameArg).content),
      ((strip hostnameArg ++ [' ']).isPrefixOf l) = false := by
  by_cases h1 : (strip hostnameArg).isEmpty
  · left; simp [delete_record, h1]
  · by_cases h2 : strip hostnameArg ∈ forbiddenNames
    · left; simp [delete_record, h1, h2]
    · by_cases h3 : ∀ l ∈ readlines content, ((strip hostnameArg ++ [' ']).isPrefixOf l) = false
      · left
        have hfilt : (readlines content).filter
            (fun line => !((strip hostnameArg ++ [' ']).isPrefixOf line)) = readlines content :=
          List.filter_eq_self.mpr (fun l hl => by simp [h3 l hl])
        simp only [delete_record]
        rw [if_neg h1, if_neg (by simpa using h2), if_pos (by rw [hfilt])]
      · right
        intro l hl
        have hcontent : (delete_record content hostnameArg).content =
            ((readlines content).filter
              (fun line => !((strip hostnameArg ++ [' ']).isPrefixOf line))).flatten := by
          have hnl : ((readlines content).filter
              (fun line => !((strip hostnameArg ++ [' ']).isPrefixOf line))).length ≠
              (readlines content).length := by
            apply Nat.ne_of_lt
            rw [List.length_filter_lt_length_iff_exists]
            rcases not_forall.mp h3 with ⟨l, hl⟩
            rcases Classical.not_imp.mp hl with ⟨hmem, hp⟩
            exact ⟨l, hmem, by simpa using hp⟩
          simp only [delete_record]
          rw [if_neg h1, if_neg (by simpa using h2), if_neg hnl]
        rw [hcontent, readlines_flatten_filter] at hl
        have hmem := (List.mem_filter.mp hl).2
        simpa using hmem

/-- C4: a delete with an empty trimmed hostname, a reserved hostname, or a
hostname matching no line performs no write and no reload, leaves the zone
file unchanged, and reports the corresponding reason. -/
theorem delete_reject_frame (content hostnameArg : Text)
    (h : strip hostnameArg = [] ∨ forbiddenNames.contains (strip hostnameArg) = true ∨
      ∀ l ∈ readlines content, ((strip hostnameArg ++ [' ']).isPrefixOf l) = false) :
    (delete_record content hostnameArg).content = content ∧
    (delete_record content hostnameArg).wrote = false ∧
    (delete_record content hostnameArg).reloaded = false ∧
    ((delete_record content hostnameArg).msg = DeleteMsg.noHostname ∨
      (delete_record content hostnameArg).msg = DeleteMsg.forbidden (strip hostnameArg) ∨
      (delete_record content hostnameArg).msg = DeleteMsg.notFound (strip hostnameArg)) := by
  by_cases h1 : (strip hostnameArg).isEmpty
  · simp [delete_record, h1]
  · by_cases h2 : strip hostnameArg ∈ forbiddenNames
    · simp [delete_record, h1, h2]
    · have h3 : ∀ l ∈ readlines content, ((strip hostnameArg ++ [' ']).isPrefixOf l) = false := by
        rcases h with h | h | h
        · exact absurd (by simp [h, List.isEmpty_iff]) h1
        · exact absurd (by simpa using h) h2
        · exact h
      have hfilt : (readlines content).filter
          (fun line => !((strip hostnameArg ++ [' ']).isPrefixOf line)) = readlines content :=
        List.filter_eq_self.mpr (fun l hl => by simp [h3 l hl])
      simp only [delete_record]
      rw [if_neg h1, if_neg (by simpa using h2), if_pos (by rw [hfilt])]
      simp

/-- C4 witness: deleting the reserved hostname "ns1" from a concrete file. -/
theorem delete_reject_frame_witness :
    (strip ("ns1".data) = [] ∨ forbiddenNames.contains (strip ("ns1".data)) = true ∨
      ∀ l ∈ readlines ("a 1 IN A x\n".data), ((strip ("ns1".data) ++ [' ']).isPrefixOf l) = false) ∧
    ((delete_record ("a 1 IN A x\n".data) ("ns1".data)).content = "a 1 IN A x\n".data ∧
      (delete_record ("a 1 IN A x\n".data) ("ns1".data)).wrote = false ∧
      (delete_record ("a 1 IN A x\n".data) ("ns1".data)).reloaded = false ∧
      ((delete_record ("a 1 IN A x\n".data) ("ns1".data)).msg = DeleteMsg.noHostname ∨
        (delete_record ("a 1 IN A x\n".data) ("ns1".data)).msg =
          DeleteMsg.forbidden (strip ("ns1".data)) ∨
        (delete_record ("a 1 IN A x\n".data) ("ns1".data)).msg =
          DeleteMsg.notFound (strip ("ns1".data)))) :=
  ⟨by decide, delete_reject_frame _ _ (by decide)⟩

/-- C10: a delete that passes the checks and matches at least one line
rewrites the zone file to exactly the non-matching lines, preserved in
content and relative order. -/
theorem delete_success_frame (content hostnameArg : Text)
    (hne : strip hostnameArg ≠ [])
    (hforb : forbiddenNames.contains (strip hostnameArg) = false)
    (hmatch : ∃ l ∈ readlines content, ((strip hostnameArg ++ [' ']).isPrefixOf l) = true) :
    (delete_record content hostnameArg).wrote = true ∧
    (delete_record content hostnameArg).reloaded = true ∧
    readlines ((delete_record content hostnameArg).content) =
      (readlines content).filter (fun line => !((strip hostnameArg ++ [' ']).isPrefixOf line)) := by
  have h1 : (strip hostnameArg).isEmpty = false := by
    cases hs : strip hostnameArg
    · exact absurd hs hne
    · rfl
  have hforbm : strip hostnameArg ∉ forbiddenNames := by simpa using hforb
  have h3 : ((readlines content).filter
      (fun line => !((strip hostnameArg ++ [' ']).isPrefixOf line))).length ≠
      (readlines content).length := by
    apply Nat.ne_of_lt
    rw [List.length_filter_lt_length_iff_exists]
    obtain ⟨l, hl, hp⟩ := hmatch
    exact ⟨l, hl, by simp [hp]⟩
  have hdr : delete_record content hostnameArg =
      ⟨((readlines content).filter
          (fun line => !((strip hostnameArg ++ [' ']).isPrefixOf line))).flatten,
        true, true, DeleteMsg.deleted (strip hostnameArg)⟩ := by
    simp [delete_record, h1, hforbm, h3]
  rw [hdr]
  exact ⟨rfl, rfl, readlines_flatten_filter content _⟩

/-- C10 witness: deleting "web1" from a concrete two-line zone file keeps
exactly the non-matching line. -/
theorem delete_success_frame_witness :
    strip ("web1".data) ≠ [] ∧
    forbiddenNames.contains (strip ("web1".data)) = false ∧
    (∃ l ∈ readlines ("a 1 IN A x\nweb1 300 IN A 10.0.0.5\n".data),
      ((strip ("web1".data) ++ [' ']).isPrefixOf l) = true) ∧
    ((delete_record ("a 1 IN A x\nweb1 300 IN A 10.0.0.5\n".data) ("web1".data)).wrote = true ∧
      (delete_record ("a 1 IN A x\nweb1 300 IN A 10.0.0.5\n".data) ("web1".data)).reloaded = true ∧
      readlines ((delete_record ("a 1 IN A x\nweb1 300 IN A 10.0.0.5\n".data) ("web1".data)).content) =
        (readlines ("a 1 IN A x\nweb1 300 IN A 10.0.0.5\n".data)).filter
          (fun line => !((strip ("web1".data) ++ [' ']).isPrefixOf line))) :=
  ⟨by decide, by decide, by decide,
    delete_success_frame _ _ (by decide) (by decide) (by decide)⟩

/-- C2 counterexample: if the zone file already holds a line for the same
hostname, the prefix-matching delete removes that pre-existing line too, so
add-then-delete does not return the pre-add content. -/
theorem add_delete_roundtrip_cex :
    (delete_record (add_record ("web1 300 IN A 1.2.3.4\n".data) ("web1".data) 300
      ("5.6.7.8".data)) ("web1".data)).content ≠ "web1 300 IN A 1.2.3.4\n".data := by
  decide

/-- C2 (amended): on a newline-terminated (or empty) zone file with no line
already starting with `"<hostname> "`, and a trimmed, non-reserved,
newline-free hostname and newline-free ip, adding the record and then
deleting the hostname returns the zone file exactly to its pre-add content
(and the delete writes, reloads and reports success). -/
theorem add_delete_roundtrip (content hostname ip : Text) (ttl : Int)
    (hend : content = [] ∨ content.getLast? = some '\n')
    (hstrip : strip hostname = hostname)
    (hne : hostname ≠ [])
    (hforb : forbiddenNames.contains hostname = false)
    (hh : '\n' ∉ hostname) (hi : '\n' ∉ ip)
    (hnomatch : ∀ l ∈ readlines content, (hostname ++ [' ']).isPrefixOf l = false) :
    delete_record (add_record content hostname ttl ip) hostname =
      ⟨content, true, true, DeleteMsg.deleted hostname⟩ := by
  have hfull : FullLine (mkRecord hostname ttl ip) := mkRecord_full hostname ttl ip hh hi
  have hlines : readlines (add_record content hostname ttl ip) =
      readlines content ++ [mkRecord hostname ttl ip] := by
    rw [add_record, readlines_newline_append content _ hend, readlines_single _ hfull.1]
  have hempty : hostname.isEmpty = false := by
    cases hostname
    · exact absurd rfl hne
    · rfl
  have hprec : (hostname ++ [' ']).isPrefixOf (mkRecord hostname ttl ip) = true := by
    rw [isPrefixOf_eq_true_iff _ _,
      show mkRecord hostname ttl ip =
        (hostname ++ [' ']) ++ (intRepr ttl ++ " IN A ".data ++ ip ++ ['\n']) by simp [mkRecord]]
    exact List.prefix_append _ _
  have hfilter : (readlines (add_record content hostname ttl ip)).filter
      (fun line => !((hostname ++ [' ']).isPrefixOf line)) = readlines content := by
    rw [hlines, List.filter_append, List.filter_singleton]
    simp only [hprec, Bool.not_true, cond_false, List.append_nil]
    exact List.filter_eq_self.mpr (fun l hl => by simp [hnomatch l hl])
  have hlen : ((readlines (add_record content hostname ttl ip)).filter
      (fun line => !((hostname ++ [' ']).isPrefixOf line))).length ≠
      (readlines (add_record content hostname ttl ip)).length := by
    rw [hfilter, hlines]
    simp
  simp only [delete_record, hstrip]
  rw [if_neg (by simp [hempty]), if_neg (by simpa using hforb), if_neg hlen, hfilter,
    flatten_readlines]

/-- C2 witness: the round-trip on a concrete bootstrap zone file. -/
theorem add_delete_roundtrip_witness :
    (("ns1 IN A 127.0.0.1\n".data : Text) = [] ∨
      ("ns1 IN A 127.0.0.1\n".data : Text).getLast? = some '\n') ∧
    strip ("web1".data) = "web1".data ∧ ("web1".data : Text) ≠ [] ∧
    forbiddenNames.contains ("web1".data) = false ∧
    '\n' ∉ ("web1".data : Text) ∧ '\n' ∉ ("10.0.0.5".data : Text) ∧
    (∀ l ∈ readlines ("ns1 IN A 127.0.0.1\n".data),
      ("web1".data ++ [' ']).isPrefixOf l = false) ∧
    delete_record (add_record ("ns1 IN A 127.0.0.1\n".data) ("web1".data) 300
        ("10.0.0.5".data)) ("web1".data) =
      ⟨"ns1 IN A 127.0.0.1\n".data, true, true, DeleteMsg.deleted ("web1".data)⟩ :=
  ⟨by decide, by decide, by decide, by decide, by decide, by decide, by decide,
    add_delete_roundtrip _ _ _ _ (by decide) (by decide) (by decide) (by decide)
      (by decide) (by decide) (by decide)⟩

/-- C3 counterexample: starting from a zone file that already holds a
"host1" line, the delete removes that line as well, so the file does not
keep its non-added lines. -/
theorem prefix_safety_cex :
    (delete_record (add_record (add_record ("host1 5 IN A 9.9.9.9\n".data) ("host1".data) 5
        ("1.1.1.1".data)) ("host10".data) 5 ("2.2.2.2".data)) ("host1".data)).content ≠
      "host1 5 IN A 9.9.9.9\n".data ++ mkRecord ("host10".data) 5 ("2.2.2.2".data) := by
  decide

/-- C3 (amended): starting from a newline-terminated (or empty) zone file
with no line already starting with "host1 ", after adding records for
"host1" and "host10" (newline-free ips), deleting "host1" removes exactly
the added host1 line: the file becomes the original content followed by
the host10 record, which is left intact. -/
theorem prefix_safety (content ip1 ip2 : Text) (ttl1 ttl2 : Int)
    (hend : content = [] ∨ content.getLast? = some '\n')
    (hi1 : '\n' ∉ ip1) (hi2 : '\n' ∉ ip2)
    (hnomatch : ∀ l ∈ readlines content, ("host1 ".data).isPrefixOf l = false) :
    delete_record (add_record (add_record content ("host1".data) ttl1 ip1) ("host10".data)
        ttl2 ip2) ("host1".data) =
      ⟨content ++ mkRecord ("host10".data) ttl2 ip2, true, true,
        DeleteMsg.deleted ("host1".data)⟩ := by
  have hfull1 : FullLine (mkRecord ("host1".data) ttl1 ip1) :=
    mkRecord_full _ _ _ (by decide) hi1
  have hfull10 : FullLine (mkRecord ("host10".data) ttl2 ip2) :=
    mkRecord_full _ _ _ (by decide) hi2
  have harg : add_record (add_record content ("host1".data) ttl1 ip1) ("host10".data) ttl2 ip2 =
      content ++ (mkRecord ("host1".data) ttl1 ip1 ++ mkRecord ("host10".data) ttl2 ip2) := by
    simp [add_record]
  have hlines : readlines (add_record (add_record content ("host1".data) ttl1 ip1)
      ("host10".data) ttl2 ip2) =
      readlines content ++ [mkRecord ("host1".data) ttl1 ip1,
        mkRecord ("host10".data) ttl2 ip2] := by
    rw [harg, readlines_newline_append content _ hend,
      readlines_newline_append _ _ (Or.inr hfull1.2),
      readlines_single _ hfull1.1, readlines_single _ hfull10.1]
    rfl
  have hpre1 : ("host1 ".data).isPrefixOf (mkRecord ("host1".data) ttl1 ip1) = true := by
    rw [isPrefixOf_eq_true_iff _ _,
      show mkRecord ("host1".data) ttl1 ip1 =
        ("host1 ".data) ++ (intRepr ttl1 ++ " IN A ".data ++ ip1 ++ ['\n']) by simp [mkRecord]]
    exact List.prefix_append _ _
  have hpre10 : ("host1 ".data).isPrefixOf (mkRecord ("host10".data) ttl2 ip2) = false := by
    have hnp : ¬ ("host1 ".data <+: mkRecord ("host10".data) ttl2 ip2) := by
      intro hp
      rw [List.prefix_iff_eq_take,
        show (("host1 ".data : Text)).length = (("host10".data : Text)).length by decide,
        show mkRecord ("host10".data) ttl2 ip2 =
          ("host10".data) ++ ([' '] ++ (intRepr ttl2 ++ " IN A ".data ++ ip2 ++ ['\n']))
          by simp [mkRecord],
        List.take_left] at hp
      exact absurd hp (by decide)
    exact Bool.eq_false_iff.mpr (fun ht => hnp ((isPrefixOf_eq_true_iff _ _).mp ht))
  have hfilter : (readlines (add_record (add_record content ("host1".data) ttl1 ip1)
      ("host10".data) ttl2 ip2)).filter
      (fun line => !(("host1".data ++ [' ']).isPrefixOf line)) =
      readlines content ++ [mkRecord ("host10".data) ttl2 ip2] := by
    rw [hlines]
    rw [show ("host1".data ++ [' '] : Text) = "host1 ".data by decide]
    rw [List.filter_append]
    rw [List.filter_eq_self.mpr (fun l hl => by simp [hnomatch l hl])]
    simp [List.filter, hpre1, hpre10]
  have hlen : ((readlines (add_record (add_record content ("host1".data) ttl1 ip1)
      ("host10".data) ttl2 ip2)).filter
      (fun line => !(("host1".data ++ [' ']).isPrefixOf line))).length ≠
      (readlines (add_record (add_record content ("host1".data) ttl1 ip1)
        ("host10".data) ttl2 ip2)).length := by
    rw [hfilter, hlines]
    simp
  simp only [delete_record, show strip ("host1".data) = "host1".data by decide]
  rw [if_neg (by decide), if_neg (by decide), if_neg hlen, hfilter]
  rw [List.flatten_append, flatten_readlines]
  simp

/-- C3 witness: the prefix-safety scenario on a concrete bootstrap zone
file. -/
theorem prefix_safety_witness :
    (("ns1 IN A 127.0.0.1\n".data : Text) = [] ∨
      ("ns1 IN A 127.0.0.1\n".data : Text).getLast? = some '\n') ∧
    '\n' ∉ ("1.1.1.1".data : Text) ∧ '\n' ∉ ("2.2.2.2".data : Text) ∧
    (∀ l ∈ readlines ("ns1 IN A 127.0.0.1\n".data),
      ("host1 ".data).isPrefixOf l = false) ∧
    delete_record (add_record (add_record ("ns1 IN A 127.0.0.1\n".data) ("host1".data) 5
        ("1.1.1.1".data)) ("host10".data) 5 ("2.2.2.2".data)) ("host1".data) =
      ⟨"ns1 IN A 127.0.0.1\n".data ++ mkRecord ("host10".data) 5 ("2.2.2.2".data), true, true,
        DeleteMsg.deleted ("host1".data)⟩ :=
  ⟨by decide, by decide, by decide, by decide,
    prefix_safety _ _ _ _ _ (by decide) (by decide) (by decide) (by decide)⟩

/-- C7 counterexample: Python `str.replace` substitutes every occurrence,
so a document holding the ACL marker twice does not get "each marker
substituted exactly once with the rest unchanged". -/
theorem init_substitution_cex :
    initTransform ("10.0.0.0/24".data) ("s.orbitlab.internal".data)
        (("X# ACL".data) ++ aclMarker ++ (("Y".data) ++ zoneMarker ++ ("Z".data))) ≠
      ("X# ACL".data) ++ aclBlock ("10.0.0.0/24".data) ++
        (("Y".data) ++ zoneBlock ("s.orbitlab.internal".data) ++ ("Z".data)) := by
  decide

/-- C7 (amended): init substitutes every occurrence of each marker; when
the ACL marker occurs exactly once in the document and the ZONE marker
occurs exactly once in the ACL-substituted document, each marker is
replaced exactly once, in place, and the rest of the text is unchanged. -/
theorem init_substitution (cidr zname a b c : Text)
    (hA : noEarlyMatch aclMarker a (b ++ zoneMarker ++ c) = true)
    (hA2 : containsSub aclMarker (b ++ zoneMarker ++ c) = false)
    (hZ : noEarlyMatch zoneMarker (a ++ aclBlock cidr ++ b) c = true)
    (hZ2 : containsSub zoneMarker c = false) :
    initTransform cidr zname (a ++ aclMarker ++ (b ++ zoneMarker ++ c)) =
      a ++ aclBlock cidr ++ (b ++ zoneBlock zname ++ c) := by
  rw [initTransform]
  rw [replaceAll_single aclMarker (aclBlock cidr) a (b ++ zoneMarker ++ c) (by decide) hA hA2]
  rw [show a ++ aclBlock cidr ++ (b ++ zoneMarker ++ c) =
    (a ++ aclBlock cidr ++ b) ++ zoneMarker ++ c by simp]
  rw [replaceAll_single zoneMarker (zoneBlock zname) _ c (by decide) hZ hZ2]
  simp

/-- C7 witness: the substitution at a concrete well-formed Configuration
Document with one occurrence of each marker. -/
theorem init_substitution_witness :
    noEarlyMatch aclMarker ("head\n".data)
      (("\nmid\n".data) ++ zoneMarker ++ ("\ntail\n".data)) = true ∧
    containsSub aclMarker (("\nmid\n".data) ++ zoneMarker ++ ("\ntail\n".data)) = false ∧
    noEarlyMatch zoneMarker (("head\n".data) ++ aclBlock ("10.0.0.0/24".data) ++ ("\nmid\n".data))
      ("\ntail\n".data) = true ∧
    containsSub zoneMarker ("\ntail\n".data) = false ∧
    initTransform ("10.0.0.0/24".data) ("s.orbitlab.internal".data)
        (("head\n".data) ++ aclMarker ++ (("\nmid\n".data) ++ zoneMarker ++ ("\ntail\n".data))) =
      ("head\n".data) ++ aclBlock ("10.0.0.0/24".data) ++
        (("\nmid\n".data) ++ zoneBlock ("s.orbitlab.internal".data) ++ ("\ntail\n".data)) :=
  ⟨by decide, by decide, by decide, by decide,
    init_substitution _ _ _ _ _ (by decide) (by decide) (by decide) (by decide)⟩

end SectorDNS
